import Mathlib

/-!
Verification of the paper-aggregation pipeline
(`scripts/fetch_papers.py`, `scripts/generate_rss.py`).

Python strings are modelled by Lean `String` values manipulated through
their underlying `List Char` (Python indexes/slices by code point, which
matches `String.data`).  Python string comparison is code-point
lexicographic, modelled by `charsLt` below.  `str.lower`/`str.strip` are
modelled by `Char.toLower`/whitespace trimming (adequate for ASCII data).
-/

/-- Python `s[:n]` (slice by code points). -/
def pyTake (n : Nat) (s : String) : String :=
  ⟨s.data.take n⟩

/-- Python `s.lower()`. -/
def pyLower (s : String) : String :=
  ⟨s.data.map Char.toLower⟩

/-- Python `s.strip()`: drop whitespace from both ends. -/
def pyStrip (s : String) : String :=
  ⟨((s.data.dropWhile Char.isWhitespace).reverse.dropWhile Char.isWhitespace).reverse⟩

/-- Python `s.replace('\n', ' ')`. -/
def pyReplaceNl (s : String) : String :=
  ⟨s.data.map (fun c => if c = '\n' then ' ' else c)⟩

/-- Substring test on character lists (Python `needle in haystack`). -/
def isSubChars (needle : List Char) : List Char → Bool
  | [] => needle.isEmpty
  | c :: cs => needle.isPrefixOf (c :: cs) || isSubChars needle cs

/-- Python `needle in haystack` for strings. -/
def substrOf (needle hay : String) : Bool :=
  isSubChars needle.data hay.data

/-- Python `list(dict.fromkeys(l))`: deduplicate keeping the first
occurrence of each element, in order. -/
def pydedup (seen : List String) : List String → List String
  | [] => []
  | x :: xs => if x ∈ seen then pydedup seen xs else x :: pydedup (x :: seen) xs

/-- Code-point lexicographic `<` on character lists (Python string `<`). -/
def charsLt : List Char → List Char → Bool
  | [], [] => false
  | [], _ :: _ => true
  | _ :: _, [] => false
  | a :: as, b :: bs => if a < b then true else if b < a then false else charsLt as bs

/-- Code-point lexicographic `≤` on character lists. -/
def charsLe (a b : List Char) : Bool :=
  charsLt a b || decide (a = b)

/-- Python string `≤` (used for the date sort keys). -/
def dateLe (a b : String) : Bool :=
  charsLe a.data b.data

/-- The catalog record shape built by both connectors
(`fetch_papers.py`, the dicts appended to `papers`). -/
structure Paper where
  id : String
  title : String
  authors : String
  date : String
  url : String
  abstract : String
  tags : List String
  source : String
  featured : Bool
deriving DecidableEq, Repr, Inhabited

/-- The `tag_keywords` table of `generate_tags`, in source order. -/
def tag_keywords : List (String × List String) :=
  [ ("SAE", ["sparse autoencoder", "sae ", "saes"]),
    ("circuits", ["circuit", "computational graph"]),
    ("superposition", ["superposition"]),
    ("features", ["feature", "monosemantic", "polysemantic"]),
    ("safety", ["safety", "alignment", "harmful"]),
    ("probing", ["probe", "probing", "classifier"]),
    ("attention", ["attention head", "attention pattern"]),
    ("steering", ["steering", "activation engineering"]),
    ("editing", ["model editing", "knowledge editing"]),
    ("survey", ["survey", "review", "overview"]),
    ("theory", ["theoretical", "theory", "mathematical framework"]),
    ("vision", ["vision", "visual", "multimodal", "image"]),
    ("biology", ["protein", "dna", "biological", "biology"]),
    ("reasoning", ["reasoning", "chain-of-thought", "cot"]) ]

/-- `generate_tags(title, abstract)`: collect the label of every table
entry one of whose keywords occurs in the lower-cased combined text, then
`list(dict.fromkeys(tags))[:6]`. -/
def generate_tags (title abstract : String) : List String :=
  let content := pyLower (title ++ " " ++ abstract)
  let tags := (tag_keywords.filter
    (fun tk => tk.2.any (fun kw => substrOf kw content))).map Prod.fst
  (pydedup [] tags).take 6

/-- `strong_terms` of `is_relevant_paper`. -/
def strong_terms : List String :=
  [ "mechanistic interpretability", "sparse autoencoder", "transformer circuit",
    "activation patching", "superposition", "monosemantic", "polysemantic",
    "feature steering", "probing classifier", "logit lens", "transcoder",
    "crosscoder", "representation engineering", "causal tracing" ]

/-- `interp_terms` of `is_relevant_paper`. -/
def interp_terms : List String :=
  [ "interpretab", "explain", "understand", "circuit", "mechanis", "feature" ]

/-- `ml_terms` of `is_relevant_paper`. -/
def ml_terms : List String :=
  [ "neural", "transformer", "language model", "llm", "gpt", "bert",
    "attention", "deep learning", "large language" ]

/-- `is_relevant_paper(paper)`: strong terms short-circuit to relevant,
otherwise require an interpretability term and an ML term. -/
def is_relevant_paper (p : Paper) : Bool :=
  let content := pyLower p.title ++ " " ++ pyLower p.abstract
  if strong_terms.any (fun t => substrOf t content) then
    true
  else
    interp_terms.any (fun t => substrOf t content)
      && ml_terms.any (fun t => substrOf t content)

/-- The normalized title key of `merge_papers`:
`p.get('title', '').lower().strip()[:100]`. -/
def normTitle (s : String) : String :=
  pyTake 100 (pyStrip (pyLower s))

/-- The iteration over `new` in `merge_papers`: given the id / url /
normalized-title membership sets (modelled as lists, membership only),
return the accepted records in order, growing the sets as records are
accepted. -/
def mergeLoop (ids urls titles : List String) : List Paper → List Paper
  | [] => []
  | p :: ps =>
    if p.id ∈ ids ∨ p.url ∈ urls then
      mergeLoop ids urls titles ps
    else if normTitle p.title ∈ titles then
      mergeLoop ids urls titles ps
    else
      p :: mergeLoop (p.id :: ids) (p.url :: urls) (normTitle p.title :: titles) ps

/-- The records of `new` accepted by `merge_papers existing new`. -/
def acceptedPapers (existing new : List Paper) : List Paper :=
  mergeLoop (existing.map Paper.id) (existing.map Paper.url)
    (existing.map (fun p => normTitle p.title)) new

/-- The id / url / normalized-title membership sets held by the loop of
`merge_papers` after it has processed the given records (same recursion
and conditions as `mergeLoop`, returning the final sets instead of the
accepted records). -/
def loopSets (ids urls titles : List String) :
    List Paper → List String × List String × List String
  | [] => (ids, urls, titles)
  | p :: ps =>
    if p.id ∈ ids ∨ p.url ∈ urls then
      loopSets ids urls titles ps
    else if normTitle p.title ∈ titles then
      loopSets ids urls titles ps
    else
      loopSets (p.id :: ids) (p.url :: urls) (normTitle p.title :: titles) ps

/-- The loop's membership sets after processing the batch prefix `pre`
against the catalog `ex`, starting from the sets built from `ex`. -/
def loopState (ex pre : List Paper) : List String × List String × List String :=
  loopSets (ex.map Paper.id) (ex.map Paper.url)
    (ex.map (fun p => normTitle p.title)) pre

/-- Stable descending insertion by date (ties keep the earlier element
first), used to model Python's stable `sort(key=date, reverse=True)`. -/
def insertD (x : Paper) : List Paper → List Paper
  | [] => [x]
  | y :: ys => if dateLe y.date x.date then x :: y :: ys else y :: insertD x ys

/-- Stable descending sort by date: the model of
`merged.sort(key=lambda x: x.get('date', ''), reverse=True)` (Python's
sort is stable and `reverse=True` keeps equal elements in input order). -/
def sortD : List Paper → List Paper
  | [] => []
  | x :: xs => insertD x (sortD xs)

/-- `merge_papers(existing, new)`. -/
def merge_papers (existing new : List Paper) : List Paper :=
  sortD (existing ++ acceptedPapers existing new)

/-- The persisted catalog: `{'lastUpdated': ..., 'papers': [...]}`. -/
structure Catalog where
  lastUpdated : String
  papers : List Paper
deriving DecidableEq, Repr

/-- `load_existing_papers()`: the file argument is `none` when the
catalog file does not exist (`FileNotFoundError`), in which case the
code returns `{'lastUpdated': '', 'papers': []}`. -/
def load_existing_papers (file : Option Catalog) : Catalog :=
  match file with
  | none => { lastUpdated := "", papers := [] }
  | some c => c

/-- One parsed Atom entry of an arXiv API response (`None` fields model
missing child elements). -/
structure ArxivEntry where
  idText : Option String
  title : Option String
  authorNames : List String
  summary : Option String
  published : Option String
deriving DecidableEq, Repr

/-- The suffix after the last occurrence of `sep` in `l`, if `sep`
occurs (`sep` is scanned at every position; later positions win). -/
def afterLast (sep : List Char) : List Char → Option (List Char)
  | [] => none
  | c :: cs =>
    match afterLast sep cs with
    | some r => some r
    | none =>
      if sep.isPrefixOf (c :: cs) then some ((c :: cs).drop sep.length) else none

/-- Python `s.split(sep)[-1]` for a non-empty separator: the part after
the last occurrence of `sep`, or all of `s` when `sep` does not occur. -/
def pySplitLast (sep : String) (s : String) : String :=
  match afterLast sep.data s.data with
  | some r => ⟨r⟩
  | none => s

/-- `', '.join(authors[:5])` plus an `et al.` marker when more than 5
authors exist (same text for both connectors). -/
def capAuthors (names : List String) : String :=
  String.intercalate (", ") (names.take 5)
    ++ (if names.length > 5 then (", et al.") else "")

/-- The per-entry normalization of `fetch_arxiv_papers`.  `nowStr` is
`datetime.now()` as `YYYY-MM-DD`; `cutoffStr` is `now - DAYS_LOOKBACK`
as `YYYY-MM-DD` (the code compares parsed dates, which for well-formed
`YYYY-MM-DD` strings coincides with code-point comparison as modelled;
an entry whose date fails to parse is skipped by the code's per-entry
exception handler, outside this model). -/
def arxivNormalize (nowStr cutoffStr : String) (e : ArxivEntry) : Option Paper :=
  match e.idText with
  | none => none
  | some idt =>
    let arxivId := pySplitLast ("/abs/") idt
    let title := match e.title with
      | some t => pyReplaceNl (pyStrip t)
      | none => ""
    let abstract := match e.summary with
      | some s => pyTake 500 (pyReplaceNl (pyStrip s))
      | none => ""
    let dateStr := match e.published with
      | some p => pyTake 10 p
      | none => nowStr
    if charsLt dateStr.data cutoffStr.data then
      none
    else
      some { id := "arxiv-" ++ ⟨arxivId.data.map (fun c => if c = '/' ∨ c = '.' then '-' else c)⟩,
             title := title,
             authors := capAuthors e.authorNames,
             date := dateStr,
             url := "https://arxiv.org/abs/" ++ arxivId,
             abstract := abstract,
             tags := generate_tags title abstract,
             source := "arXiv",
             featured := false }

/-- `fetch_arxiv_papers` applied to the parsed entries of a response. -/
def fetch_arxiv_papers (nowStr cutoffStr : String) (entries : List ArxivEntry) : List Paper :=
  entries.filterMap (arxivNormalize nowStr cutoffStr)

/-- One entry of a Semantic Scholar search response.  String fields
model Python falsy defaults: a missing or `null` `title`,
`publicationDate` or `abstract` is the empty string; `arxivId` is
`externalIds.get('ArXiv')`. -/
structure SSEntry where
  title : String
  pubDate : String
  arxivId : Option String
  authorNames : List String
  abstract : String
  url : String
  paperId : String
deriving DecidableEq, Repr

/-- The per-entry normalization of `fetch_semantic_scholar`: skip
entries with a falsy title or publication date, skip entries carrying a
truthy ArXiv external id, otherwise build the record. -/
def ssNormalize (e : SSEntry) : Option Paper :=
  if e.title = "" ∨ e.pubDate = "" then none
  else if e.arxivId.getD "" ≠ "" then none
  else
    let abstract := if e.abstract = "" then "" else pyTake 500 e.abstract
    some { id := "ss-" ++ pyTake 20 e.paperId,
           title := e.title,
           authors := capAuthors e.authorNames,
           date := e.pubDate,
           url := e.url,
           abstract := abstract,
           tags := generate_tags e.title abstract,
           source := "Semantic Scholar",
           featured := false }

/-- `fetch_semantic_scholar` applied to the parsed `data` array. -/
def fetch_semantic_scholar (entries : List SSEntry) : List Paper :=
  entries.filterMap ssNormalize

/-- `html.escape` (`escape_xml` of `generate_rss.py`), per character. -/
def escapeChar (c : Char) : List Char :=
  if c = '&' then ("&amp;").data
  else if c = '<' then ("&lt;").data
  else if c = '>' then ("&gt;").data
  else if c = '"' then ("&quot;").data
  else if c = Char.ofNat 39 then ("&#x27;").data
  else [c]

/-- `escape_xml(text)` of `generate_rss.py`. -/
def escape_xml (s : String) : String :=
  ⟨(s.data.map escapeChar).flatten⟩

/-- The description HTML block built for one item in `generate_rss`. -/
def rssDescription (p : Paper) : String :=
  let authors := escape_xml p.authors
  let abstract := escape_xml p.abstract
  "<p><strong>Authors:</strong> " ++ authors ++ "</p>"
    ++ (if abstract ≠ "" then "<p>" ++ abstract ++ "</p>" else "")
    ++ (if p.tags ≠ [] then
          "<p><strong>Tags:</strong> " ++ String.intercalate (", ") p.tags ++ "</p>"
        else "")

/-- One `<item>` of the feed.  `descriptionXml` is the description as
embedded in the document, wrapped in the CDATA section exactly as the
code's template does.  The `pubDate` element only reformats
`paper['date']` (date-formatting cosmetics, out of the modelled
contract). -/
structure RssItem where
  title : String
  link : String
  descriptionXml : String
  guid : String
deriving DecidableEq, Repr

/-- The item built for one paper by the loop of `generate_rss`. -/
def mkRssItem (p : Paper) : RssItem :=
  { title := escape_xml p.title,
    link := escape_xml p.url,
    descriptionXml := "<![CDATA[" ++ rssDescription p ++ "]]>",
    guid := escape_xml p.url }

/-- The items emitted by `generate_rss`: `data.get('papers', [])[:30]`,
each rendered in order. -/
def generate_rss_items (papersData : List Paper) : List RssItem :=
  (papersData.take 30).map mkRssItem

/-- The descending-date order on records used by the merge sort step. -/
abbrev dateGe (a b : Paper) : Prop := dateLe b.date a.date = true

theorem charsLt_trans (a : List Char) : ∀ (b c : List Char),
    charsLt a b = true → charsLt b c = true → charsLt a c = true := by
  induction a with
  | nil =>
    intro b c h1 h2
    cases b with
    | nil => simp [charsLt] at h1
    | cons y ys =>
      cases c with
      | nil => simp [charsLt] at h2
      | cons z zs => simp [charsLt]
  | cons x xs ih =>
    intro b c h1 h2
    cases b with
    | nil => simp [charsLt] at h1
    | cons y ys =>
      cases c with
      | nil => simp [charsLt] at h2
      | cons z zs =>
        simp only [charsLt] at h1 h2 ⊢
        by_cases hxy : x < y
        · by_cases hyz : y < z
          · simp [lt_trans hxy hyz]
          · by_cases hzy : z < y
            · simp [hyz, hzy] at h2
            · have hyeq : y = z := le_antisymm (not_lt.mp hzy) (not_lt.mp hyz)
              subst hyeq
              simp [hxy]
        · by_cases hyx : y < x
          · simp [hxy, hyx] at h1
          · have hxeq : x = y := le_antisymm (not_lt.mp hyx) (not_lt.mp hxy)
            subst hxeq
            simp only [lt_irrefl, if_false] at h1
            by_cases hxz : x < z
            · simp [hxz]
            · by_cases hzx : z < x
              · simp [hxz, hzx] at h2
              · simp only [lt_irrefl, if_false, hxz, hzx] at h2 ⊢
                exact ih ys zs h1 h2

theorem charsLt_tri (a : List Char) : ∀ (b : List Char),
    charsLt a b = true ∨ charsLt b a = true ∨ a = b := by
  induction a with
  | nil =>
    intro b
    cases b with
    | nil => right; right; rfl
    | cons y ys => left; simp [charsLt]
  | cons x xs ih =>
    intro b
    cases b with
    | nil => right; left; simp [charsLt]
    | cons y ys =>
      rcases lt_trichotomy x y with h | h | h
      · left; simp [charsLt, h]
      · subst h
        rcases ih ys with h2 | h2 | h2
        · left; simp [charsLt, h2]
        · right; left; simp [charsLt, h2]
        · right; right; rw [h2]
      · right; left; simp [charsLt, h]

theorem charsLe_trans (a b c : List Char)
    (h1 : charsLe a b = true) (h2 : charsLe b c = true) : charsLe a c = true := by
  simp only [charsLe, Bool.or_eq_true, decide_eq_true_eq] at h1 h2 ⊢
  rcases h1 with h1 | h1
  · rcases h2 with h2 | h2
    · exact Or.inl (charsLt_trans a b c h1 h2)
    · subst h2; exact Or.inl h1
  · subst h1; exact h2

theorem charsLe_total (a b : List Char) : charsLe a b = true ∨ charsLe b a = true := by
  simp only [charsLe, Bool.or_eq_true, decide_eq_true_eq]
  rcases charsLt_tri a b with h | h | h
  · exact Or.inl (Or.inl h)
  · exact Or.inr (Or.inl h)
  · exact Or.inl (Or.inr h)

theorem dateLe_trans {a b c : String}
    (h1 : dateLe a b = true) (h2 : dateLe b c = true) : dateLe a c = true :=
  charsLe_trans a.data b.data c.data h1 h2

theorem dateLe_of_not (a b : String) (h : dateLe a b = false) : dateLe b a = true := by
  rcases charsLe_total a.data b.data with h2 | h2
  · rw [dateLe] at h; rw [h2] at h; cases h
  · exact h2

theorem dateLe_refl (a : String) : dateLe a a = true := by
  simp [dateLe, charsLe]

theorem ne_of_dateLe_false {a b : String} (h : dateLe a b = false) : a ≠ b := by
  intro hab
  subst hab
  rw [dateLe_refl] at h
  cases h

theorem mem_insertD {z x : Paper} : ∀ {l : List Paper}, z ∈ insertD x l → z = x ∨ z ∈ l := by
  intro l
  induction l with
  | nil => intro h; simpa [insertD] using h
  | cons y ys ih =>
    intro h
    by_cases hc : dateLe y.date x.date = true
    · simp only [insertD, hc, if_true] at h
      simpa using h
    · simp only [insertD, hc, if_false] at h
      rcases List.mem_cons.mp h with h | h
      · right; simp [h]
      · rcases ih h with h | h
        · exact Or.inl h
        · right; simp [h]

theorem pairwise_insertD (x : Paper) : ∀ (l : List Paper),
    l.Pairwise dateGe → (insertD x l).Pairwise dateGe := by
  intro l
  induction l with
  | nil => intro _; simp [insertD, List.Pairwise]
  | cons y ys ih =>
    intro h
    rcases List.pairwise_cons.mp h with ⟨hy, hys⟩
    by_cases hc : dateLe y.date x.date = true
    · simp only [insertD, hc, if_true]
      refine List.pairwise_cons.mpr ⟨?_, h⟩
      intro z hz
      rcases List.mem_cons.mp hz with hz | hz
      · subst hz; exact hc
      · exact dateLe_trans (hy z hz) hc
    · simp only [insertD, hc, if_false]
      refine List.pairwise_cons.mpr ⟨?_, ih hys⟩
      intro z hz
      rcases mem_insertD hz with hz | hz
      · subst hz
        exact dateLe_of_not _ _ (Bool.not_eq_true _ ▸ hc)
      · exact hy z hz

theorem sortD_pairwise : ∀ (l : List Paper), (sortD l).Pairwise dateGe := by
  intro l
  induction l with
  | nil => simp [sortD]
  | cons x xs ih => exact pairwise_insertD x (sortD xs) ih

theorem sortD_eq_of_pairwise : ∀ (l : List Paper), l.Pairwise dateGe → sortD l = l := by
  intro l
  induction l with
  | nil => intro _; rfl
  | cons x xs ih =>
    intro h
    rcases List.pairwise_cons.mp h with ⟨hx, hxs⟩
    rw [sortD, ih hxs]
    cases xs with
    | nil => rfl
    | cons y ys =>
      have hy : dateLe y.date x.date = true := hx y (by simp)
      simp [insertD, hy]

theorem filter_insertD (x : Paper) (d : String) : ∀ (l : List Paper),
    (insertD x l).filter (fun p => p.date = d) = ((x :: l).filter (fun p => p.date = d)) := by
  intro l
  induction l with
  | nil => rfl
  | cons y ys ih =>
    by_cases hc : dateLe y.date x.date = true
    · simp only [insertD, hc, if_true]
    · simp only [insertD, hc, if_false]
      by_cases hx : x.date = d
      · have hy : ¬ (y.date = d) := by
          intro hyd
          exact ne_of_dateLe_false (Bool.not_eq_true _ ▸ hc) (hyd.trans hx.symm)
        simp [List.filter_cons, hx, hy, ih]
      · by_cases hy : y.date = d
        · simp [List.filter_cons, hx, hy, ih]
        · simp [List.filter_cons, hx, hy, ih]

theorem filter_sortD (d : String) : ∀ (l : List Paper),
    (sortD l).filter (fun p => p.date = d) = l.filter (fun p => p.date = d) := by
  intro l
  induction l with
  | nil => rfl
  | cons x xs ih =>
    rw [sortD, filter_insertD]
    simp only [List.filter_cons, decide_eq_true_eq]
    by_cases hx : x.date = d
    · simp [hx, ih]
    · simp [hx, ih]

theorem mergeLoop_eq_nil (batch : List Paper) : ∀ (ids urls titles : List String),
    (∀ p ∈ batch, p.id ∈ ids) → mergeLoop ids urls titles batch = [] := by
  induction batch with
  | nil => intro ids urls titles _; rfl
  | cons p ps ih =>
    intro ids urls titles h
    have hp : p.id ∈ ids := h p (by simp)
    have hcond : p.id ∈ ids ∨ p.url ∈ urls := Or.inl hp
    simp only [mergeLoop, hcond, if_true]
    exact ih ids urls titles (fun q hq => h q (by simp [hq]))

theorem mergeLoop_append (l1 : List Paper) : ∀ (l2 : List Paper) (ids urls titles : List String),
    mergeLoop ids urls titles (l1 ++ l2)
      = mergeLoop ids urls titles l1
        ++ mergeLoop (loopSets ids urls titles l1).1
            (loopSets ids urls titles l1).2.1 (loopSets ids urls titles l1).2.2 l2 := by
  induction l1 with
  | nil => intro l2 ids urls titles; rfl
  | cons p ps ih =>
    intro l2 ids urls titles
    by_cases h1 : p.id ∈ ids ∨ p.url ∈ urls
    · simp only [List.cons_append, mergeLoop, loopSets]
      rw [if_pos h1, if_pos h1, if_pos h1]
      exact ih l2 ids urls titles
    · by_cases h2 : normTitle p.title ∈ titles
      · simp only [List.cons_append, mergeLoop, loopSets]
        rw [if_neg h1, if_neg h1, if_neg h1, if_pos h2, if_pos h2, if_pos h2]
        exact ih l2 ids urls titles
      · simp only [List.cons_append, mergeLoop, loopSets]
        rw [if_neg h1, if_neg h1, if_neg h1, if_neg h2, if_neg h2, if_neg h2]
        simp [ih l2 (p.id :: ids) (p.url :: urls) (normTitle p.title :: titles)]

theorem loopSets_spec (l : List Paper) : ∀ (ids urls titles : List String),
    (loopSets ids urls titles l).1
        = (mergeLoop ids urls titles l).reverse.map Paper.id ++ ids
    ∧ (loopSets ids urls titles l).2.1
        = (mergeLoop ids urls titles l).reverse.map Paper.url ++ urls
    ∧ (loopSets ids urls titles l).2.2
        = (mergeLoop ids urls titles l).reverse.map (fun q => normTitle q.title) ++ titles := by
  induction l with
  | nil => intro ids urls titles; exact ⟨rfl, rfl, rfl⟩
  | cons p ps ih =>
    intro ids urls titles
    by_cases h1 : p.id ∈ ids ∨ p.url ∈ urls
    · simp only [loopSets, mergeLoop]
      rw [if_pos h1, if_pos h1]
      exact ih ids urls titles
    · by_cases h2 : normTitle p.title ∈ titles
      · simp only [loopSets, mergeLoop]
        rw [if_neg h1, if_neg h1, if_pos h2, if_pos h2]
        exact ih ids urls titles
      · simp only [loopSets, mergeLoop]
        rw [if_neg h1, if_neg h1, if_neg h2, if_neg h2]
        rcases ih (p.id :: ids) (p.url :: urls) (normTitle p.title :: titles) with ⟨e1, e2, e3⟩
        refine ⟨?_, ?_, ?_⟩
        · rw [e1]; simp [List.reverse_cons]
        · rw [e2]; simp [List.reverse_cons]
        · rw [e3]; simp [List.reverse_cons]

theorem mem_loopState_ids (ex pre : List Paper) (s : String) :
    s ∈ (loopState ex pre).1
      ↔ (s ∈ ex.map Paper.id ∨ s ∈ (acceptedPapers ex pre).map Paper.id) := by
  unfold loopState
  rw [(loopSets_spec pre (ex.map Paper.id) (ex.map Paper.url)
    (ex.map (fun p => normTitle p.title))).1]
  rw [show acceptedPapers ex pre = mergeLoop (ex.map Paper.id) (ex.map Paper.url)
    (ex.map (fun p => normTitle p.title)) pre from rfl]
  simp only [List.mem_append, List.mem_map, List.mem_reverse]
  constructor
  · rintro (h | h)
    · exact Or.inr h
    · exact Or.inl h
  · rintro (h | h)
    · exact Or.inr h
    · exact Or.inl h

theorem mem_loopState_urls (ex pre : List Paper) (s : String) :
    s ∈ (loopState ex pre).2.1
      ↔ (s ∈ ex.map Paper.url ∨ s ∈ (acceptedPapers ex pre).map Paper.url) := by
  unfold loopState
  rw [(loopSets_spec pre (ex.map Paper.id) (ex.map Paper.url)
    (ex.map (fun p => normTitle p.title))).2.1]
  rw [show acceptedPapers ex pre = mergeLoop (ex.map Paper.id) (ex.map Paper.url)
    (ex.map (fun p => normTitle p.title)) pre from rfl]
  simp only [List.mem_append, List.mem_map, List.mem_reverse]
  constructor
  · rintro (h | h)
    · exact Or.inr h
    · exact Or.inl h
  · rintro (h | h)
    · exact Or.inr h
    · exact Or.inl h

theorem mem_loopState_titles (ex pre : List Paper) (s : String) :
    s ∈ (loopState ex pre).2.2
      ↔ (s ∈ ex.map (fun q => normTitle q.title)
          ∨ s ∈ (acceptedPapers ex pre).map (fun q => normTitle q.title)) := by
  unfold loopState
  rw [(loopSets_spec pre (ex.map Paper.id) (ex.map Paper.url)
    (ex.map (fun p => normTitle p.title))).2.2]
  rw [show acceptedPapers ex pre = mergeLoop (ex.map Paper.id) (ex.map Paper.url)
    (ex.map (fun p => normTitle p.title)) pre from rfl]
  simp only [List.mem_append, List.mem_map, List.mem_reverse]
  constructor
  · rintro (h | h)
    · exact Or.inr h
    · exact Or.inl h
  · rintro (h | h)
    · exact Or.inr h
    · exact Or.inl h

theorem mergeLoop_skip (ids urls titles : List String) (p : Paper) (post : List Paper)
    (h : p.id ∈ ids ∨ p.url ∈ urls) :
    mergeLoop ids urls titles (p :: post) = mergeLoop ids urls titles post := by
  simp only [mergeLoop]
  rw [if_pos h]

theorem mergeLoop_accept (ids urls titles : List String) (p : Paper) (post : List Paper)
    (h1 : ¬ (p.id ∈ ids ∨ p.url ∈ urls)) (h2 : normTitle p.title ∉ titles) :
    mergeLoop ids urls titles (p :: post)
      = p :: mergeLoop (p.id :: ids) (p.url :: urls) (normTitle p.title :: titles) post := by
  simp only [mergeLoop]
  rw [if_neg h1, if_neg h2]

theorem mem_pydedup {x : String} : ∀ {seen l : List String},
    x ∈ pydedup seen l → x ∉ seen := by
  intro seen l
  induction l generalizing seen with
  | nil => intro h; simp [pydedup] at h
  | cons y ys ih =>
    intro h
    by_cases hy : y ∈ seen
    · simp only [pydedup, hy, if_true] at h
      exact ih h
    · simp only [pydedup, hy, if_false, List.mem_cons] at h
      rcases h with h | h
      · subst h; exact hy
      · have h2 := ih h
        intro hx
        exact h2 (by simp [hx])

theorem pydedup_nodup : ∀ (seen l : List String), (pydedup seen l).Nodup := by
  intro seen l
  induction l generalizing seen with
  | nil => simp [pydedup]
  | cons x xs ih =>
    by_cases hx : x ∈ seen
    · simp only [pydedup, hx, if_true]
      exact ih seen
    · simp only [pydedup, hx, if_false]
      refine List.nodup_cons.mpr ⟨?_, ih (x :: seen)⟩
      intro hmem
      exact mem_pydedup hmem (by simp)

theorem pydedup_sublist : ∀ (seen l : List String), List.Sublist (pydedup seen l) l := by
  intro seen l
  induction l generalizing seen with
  | nil => simp [pydedup]
  | cons x xs ih =>
    by_cases hx : x ∈ seen
    · simp only [pydedup, hx, if_true]
      exact (ih seen).cons x
    · simp only [pydedup, hx, if_false]
      exact (ih (x :: seen)).cons₂ x

/-- Demonstration records for the merge claims: `pA` is an existing
catalog record with an empty `url`; `pB` is an incoming record with a
fresh `id`, a fresh normalized title, and an empty `url`. -/
def pA : Paper :=
  { id := "a1", title := "Alpha", authors := "", date := "2024-01-02",
    url := "", abstract := "", tags := [], source := "arXiv", featured := false }

/-- Incoming record used to refute C1 (fresh id and title, empty url). -/
def pB : Paper :=
  { id := "b2", title := "Beta", authors := "", date := "2024-01-01",
    url := "", abstract := "", tags := [], source := "arXiv", featured := false }

/-- Record with a non-empty url: used as a catalog record for C1's
witness and as the first record of the sorted demonstration catalog for
C2 and C3. -/
def pC : Paper :=
  { id := "c1", title := "Gamma", authors := "", date := "2024-01-05",
    url := "http://x/1", abstract := "", tags := [], source := "arXiv", featured := false }

/-- Second record of the demonstration sorted catalog for C2 and C3. -/
def pD : Paper :=
  { id := "d1", title := "Delta", authors := "", date := "2024-01-03",
    url := "http://x/2", abstract := "", tags := [], source := "arXiv", featured := false }

/-- C1: counterexample.  Against a catalog whose only record has an
empty `url`, the incoming record `pB` — empty `url`, an `id` not in the
id set and a normalized-title prefix not in the title set — is
nevertheless rejected by `merge_papers` (the result is the unchanged
catalog), because the code puts the empty string into the url
membership set.  This refutes the claim that an empty-url record can be
rejected only on id or title-prefix. -/
theorem c1_counterexample :
    merge_papers [pA] [pB] = [pA] ∧
    pB.url = "" ∧
    pB.id ∉ [pA].map Paper.id ∧
    normTitle pB.title ∉ [pA].map (fun q => normTitle q.title) := by
  refine ⟨by decide, rfl, by decide, by decide⟩

/-- C1 (amended): an incoming record `p` with an empty `url`, at any
position of any batch (`pre ++ p :: post`), is deduplicated on url like
any other record.  First part: if some record also has an empty `url`
— pre-existing in the catalog, or accepted earlier from the same
batch's prefix `pre` — then `p` is rejected (the loop skips it and the
accepted records are exactly those of `pre ++ post`).  Second part: if
its `id`, the empty url, and its normalized-title prefix are all fresh
with respect to both the catalog and the records accepted from `pre`,
then `p` is accepted, right after the records accepted from `pre`. -/
theorem c1_amended_empty_url_dedup (ex pre post : List Paper) (p : Paper)
    (hurl : p.url = "") :
    (("" ∈ ex.map Paper.url ∨ "" ∈ (acceptedPapers ex pre).map Paper.url) →
       acceptedPapers ex (pre ++ p :: post) = acceptedPapers ex (pre ++ post)) ∧
    (p.id ∉ ex.map Paper.id → p.id ∉ (acceptedPapers ex pre).map Paper.id →
     "" ∉ ex.map Paper.url → "" ∉ (acceptedPapers ex pre).map Paper.url →
     normTitle p.title ∉ ex.map (fun q => normTitle q.title) →
     normTitle p.title ∉ (acceptedPapers ex pre).map (fun q => normTitle q.title) →
       ∃ rest, acceptedPapers ex (pre ++ p :: post)
         = acceptedPapers ex pre ++ p :: rest) := by
  have hsplit : ∀ rest : List Paper,
      acceptedPapers ex (pre ++ rest)
        = acceptedPapers ex pre
          ++ mergeLoop (loopState ex pre).1 (loopState ex pre).2.1
              (loopState ex pre).2.2 rest := by
    intro rest
    unfold acceptedPapers loopState
    exact mergeLoop_append pre rest _ _ _
  constructor
  · intro hcol
    have hu : p.url ∈ (loopState ex pre).2.1 := by
      apply (mem_loopState_urls ex pre p.url).mpr
      rw [hurl]
      exact hcol
    rw [hsplit (p :: post), hsplit post,
      mergeLoop_skip _ _ _ p post (Or.inr hu)]
  · intro hid1 hid2 hu1 hu2 ht1 ht2
    have hcond : ¬ (p.id ∈ (loopState ex pre).1 ∨ p.url ∈ (loopState ex pre).2.1) := by
      intro hcon
      rcases hcon with hcon | hcon
      · rcases (mem_loopState_ids ex pre p.id).mp hcon with h | h
        · exact hid1 h
        · exact hid2 h
      · rw [hurl] at hcon
        rcases (mem_loopState_urls ex pre ("")).mp hcon with h | h
        · exact hu1 h
        · exact hu2 h
    have hcond2 : normTitle p.title ∉ (loopState ex pre).2.2 := by
      intro hcon
      rcases (mem_loopState_titles ex pre (normTitle p.title)).mp hcon with h | h
      · exact ht1 h
      · exact ht2 h
    refine ⟨mergeLoop (p.id :: (loopState ex pre).1) (p.url :: (loopState ex pre).2.1)
        (normTitle p.title :: (loopState ex pre).2.2) post, ?_⟩
    rw [hsplit (p :: post), mergeLoop_accept _ _ _ p post hcond hcond2]

/-- C1: witness for the amended theorem.  Both parts are instantiated:
`pB` (empty url, fresh id and title) is rejected when the batch prefix
`[pA]` contributed an earlier-accepted empty-url record — the
in-batch collision case — and accepted when the batch prefix is empty
and the catalog `[pC]` has no empty url. -/
theorem c1_witness :
    pB.url = "" ∧
    ("" ∈ [pC].map Paper.url ∨ "" ∈ (acceptedPapers [pC] [pA]).map Paper.url) ∧
    acceptedPapers [pC] ([pA] ++ pB :: []) = acceptedPapers [pC] ([pA] ++ []) ∧
    (∃ rest, acceptedPapers [pC] ([] ++ pB :: []) = acceptedPapers [pC] [] ++ pB :: rest) :=
  ⟨rfl, by decide,
   (c1_amended_empty_url_dedup [pC] [pA] [] pB rfl).1 (by decide),
   (c1_amended_empty_url_dedup [pC] [] [] pB rfl).2 (by decide) (by decide) (by decide)
     (by decide) (by decide) (by decide)⟩

/-- C2: merging an empty batch into a catalog list that satisfies the
catalog sort invariant (date descending, Data Model invariant 4)
returns the list unchanged in content and order: nothing is accepted
and the stable sort of an already-sorted list is the identity. -/
theorem c2_merge_empty_batch (ex : List Paper) (h : ex.Pairwise dateGe) :
    merge_papers ex [] = ex := by
  show sortD (ex ++ acceptedPapers ex []) = ex
  have hacc : acceptedPapers ex [] = [] := rfl
  rw [hacc, List.append_nil]
  exact sortD_eq_of_pairwise ex h

/-- C2: witness at a concrete sorted two-record catalog. -/
theorem c2_witness :
    List.Pairwise dateGe [pC, pD] ∧ merge_papers [pC, pD] [] = [pC, pD] :=
  ⟨by decide, c2_merge_empty_batch [pC, pD] (by decide)⟩

/-- C3: a batch each of whose records has an `id` already among the
catalog's ids is skipped entirely; for a catalog list satisfying the
sort invariant the merge returns it unchanged in content and order. -/
theorem c3_merge_duplicate_ids (ex batch : List Paper) (h1 : ex.Pairwise dateGe)
    (h2 : ∀ p ∈ batch, p.id ∈ ex.map Paper.id) :
    merge_papers ex batch = ex := by
  show sortD (ex ++ acceptedPapers ex batch) = ex
  have hacc : acceptedPapers ex batch = [] := mergeLoop_eq_nil batch _ _ _ h2
  rw [hacc, List.append_nil]
  exact sortD_eq_of_pairwise ex h1

/-- Incoming record for C3's witness: same `id` as `pC`, fresh url and
title and a different date. -/
def pC2 : Paper :=
  { id := "c1", title := "Other title", authors := "", date := "2024-01-09",
    url := "http://y/9", abstract := "", tags := [], source := "Semantic Scholar",
    featured := false }

/-- C3: witness at a concrete catalog and an id-duplicate batch. -/
theorem c3_witness :
    (∀ p ∈ [pC2], p.id ∈ [pC, pD].map Paper.id) ∧
    merge_papers [pC, pD] [pC2] = [pC, pD] :=
  ⟨by decide, c3_merge_duplicate_ids [pC, pD] [pC2] (by decide) (by decide)⟩

/-- C4: for every existing list and batch, the merge result is sorted
by date descending, and the sort is stable: for every date `d`, the
records with date `d` appear exactly as they do in the concatenation of
the existing list with the accepted batch records. -/
theorem c4_merge_sorted_stable (ex nw : List Paper) :
    (merge_papers ex nw).Pairwise dateGe ∧
    ∀ d : String,
      (merge_papers ex nw).filter (fun p => p.date = d)
        = (ex ++ acceptedPapers ex nw).filter (fun p => p.date = d) := by
  constructor
  · exact sortD_pairwise _
  · intro d
    exact filter_sortD d _

/-- C5: the tag generator is a pure function (identical input gives
identical output), emits at most 6 labels, repeats no label, and its
output is a sublist of the keyword table's label column — so label
order follows table order, not text position. -/
theorem c5_generate_tags_props (title abstract : String) :
    generate_tags title abstract = generate_tags title abstract ∧
    (generate_tags title abstract).length ≤ 6 ∧
    (generate_tags title abstract).Nodup ∧
    List.Sublist (generate_tags title abstract) (tag_keywords.map Prod.fst) := by
  refine ⟨rfl, ?_, ?_, ?_⟩
  · show ((pydedup [] _).take 6).length ≤ 6
    calc ((pydedup [] _).take 6).length = min 6 (pydedup [] _).length := List.length_take 6 _
    _ ≤ 6 := min_le_left _ _
  · show ((pydedup [] _).take 6).Nodup
    exact (pydedup_nodup [] _).sublist (List.take_sublist 6 _)
  · show List.Sublist ((pydedup [] _).take 6) (tag_keywords.map Prod.fst)
    refine ((List.take_sublist 6 _).trans ((pydedup_sublist [] _).trans ?_))
    exact (List.filter_sublist tag_keywords).map Prod.fst

/-- C6: tier structure of the relevance filter.  If the case-folded
combined text contains a strong indicator, the record is relevant
regardless of any ML-context term; if it contains no strong indicator,
the record is relevant exactly when it contains both an
interpretability-concept term and a neural/ML-context term. -/
theorem c6_relevance_tiers (p : Paper) :
    (strong_terms.any
        (fun t => substrOf t (pyLower p.title ++ " " ++ pyLower p.abstract)) = true →
      is_relevant_paper p = true) ∧
    (strong_terms.any
        (fun t => substrOf t (pyLower p.title ++ " " ++ pyLower p.abstract)) = false →
      (is_relevant_paper p = true ↔
        (interp_terms.any
            (fun t => substrOf t (pyLower p.title ++ " " ++ pyLower p.abstract)) = true ∧
         ml_terms.any
            (fun t => substrOf t (pyLower p.title ++ " " ++ pyLower p.abstract)) = true))) := by
  unfold is_relevant_paper
  constructor
  · intro h
    simp [h]
  · intro h
    simp [h]

/-- Record whose text carries a strong indicator but no ML-context
term (tier-1 witness for C6). -/
def pStrong : Paper :=
  { id := "s1", title := "Superposition in small models", authors := "",
    date := "2024-01-01", url := "http://s/1", abstract := "", tags := [],
    source := "arXiv", featured := false }

/-- Record with no strong indicator, one interpretability term and one
ML term (tier-2 witness for C6). -/
def pTier2 : Paper :=
  { id := "s2", title := "We explain the transformer", authors := "",
    date := "2024-01-01", url := "http://s/2", abstract := "", tags := [],
    source := "arXiv", featured := false }

/-- C6: witness instantiating both tiers at concrete records. -/
theorem c6_witness :
    is_relevant_paper pStrong = true ∧
    (is_relevant_paper pTier2 = true ↔
      (interp_terms.any
          (fun t => substrOf t (pyLower pTier2.title ++ " " ++ pyLower pTier2.abstract)) = true ∧
       ml_terms.any
          (fun t => substrOf t (pyLower pTier2.title ++ " " ++ pyLower pTier2.abstract)) = true)) :=
  ⟨(c6_relevance_tiers pStrong).1 (by decide), (c6_relevance_tiers pTier2).2 (by decide)⟩

/-- C9: loading when no prior catalog file exists (the
`FileNotFoundError` branch, modelled by a `none` file) returns the
empty catalog — no papers and an empty `lastUpdated` — rather than an
error. -/
theorem c9_load_missing_catalog :
    load_existing_papers none = { lastUpdated := "", papers := [] } ∧
    (load_existing_papers none).papers = [] :=
  ⟨rfl, rfl⟩

theorem pyTake_length_le (n : Nat) (s : String) : (pyTake n s).length ≤ n := by
  show (s.data.take n).length ≤ n
  rw [List.length_take]
  exact min_le_left _ _

theorem pyTake_replaceNl_no_nl (n : Nat) (s : String) :
    ('\n') ∉ (pyTake n (pyReplaceNl s)).data := by
  intro h
  rw [show (pyTake n (pyReplaceNl s)).data = (pyReplaceNl s).data.take n from rfl] at h
  have h2 : ('\n') ∈ (pyReplaceNl s).data := List.mem_of_mem_take h
  rw [show (pyReplaceNl s).data = s.data.map (fun c => if c = '\n' then ' ' else c) from rfl] at h2
  rcases List.mem_map.mp h2 with ⟨c, _, hc⟩
  by_cases h3 : c = '\n'
  · rw [if_pos h3] at hc
    exact absurd hc (by decide)
  · rw [if_neg h3] at hc
    exact h3 hc

/-- A Semantic Scholar entry whose abstract contains a newline; all
filter conditions pass, so the connector emits it. -/
def ssNlEntry : SSEntry :=
  { title := "t", pubDate := "2024-01-01", arxivId := none, authorNames := [],
    abstract := "a\nb", url := "u", paperId := "p" }

/-- C7: counterexample.  The Semantic Scholar connector emits a record
whose abstract still contains a newline character: it truncates the
abstract to 500 characters but, unlike the arXiv connector, performs no
newline replacement.  This refutes the claim that every record emitted
by both connectors has a newline-free abstract. -/
theorem c7_counterexample :
    (fetch_semantic_scholar [ssNlEntry]).map Paper.abstract = ["a\nb"] ∧
    ('\n') ∈ ("a\nb").data := by
  refine ⟨by decide, by decide⟩

/-- C7 (amended): every record emitted by the arXiv connector has an
abstract of at most 500 characters containing no newline; every record
emitted by the Semantic Scholar connector has an abstract of at most
500 characters (but no newline guarantee). -/
theorem c7_amended_abstract_caps :
    (∀ (nowStr cutoffStr : String) (entries : List ArxivEntry) (p : Paper),
        p ∈ fetch_arxiv_papers nowStr cutoffStr entries →
          p.abstract.length ≤ 500 ∧ ('\n') ∉ p.abstract.data) ∧
    (∀ (entries : List SSEntry) (p : Paper),
        p ∈ fetch_semantic_scholar entries → p.abstract.length ≤ 500) := by
  constructor
  · intro nowStr cutoffStr entries p hmem
    rcases List.mem_filterMap.mp hmem with ⟨e, _, hne⟩
    obtain ⟨idt, tit, auth, summ, pub⟩ := e
    cases idt with
    | none => simp [arxivNormalize] at hne
    | some idt =>
      simp only [arxivNormalize] at hne
      split at hne
      · exact absurd hne (by simp)
      · rw [Option.some.injEq] at hne
        subst hne
        cases summ with
        | none =>
          refine ⟨?_, ?_⟩
          · show (("") : String).length ≤ 500
            decide
          · show ('\n') ∉ (("") : String).data
            decide
        | some s =>
          refine ⟨?_, ?_⟩
          · show (pyTake 500 (pyReplaceNl (pyStrip s))).length ≤ 500
            exact pyTake_length_le 500 _
          · show ('\n') ∉ (pyTake 500 (pyReplaceNl (pyStrip s))).data
            exact pyTake_replaceNl_no_nl 500 _
  · intro entries p hmem
    rcases List.mem_filterMap.mp hmem with ⟨e, _, hne⟩
    unfold ssNormalize at hne
    by_cases h1 : e.title = "" ∨ e.pubDate = ""
    · rw [if_pos h1] at hne
      exact absurd hne (by simp)
    · rw [if_neg h1] at hne
      by_cases h2 : e.arxivId.getD "" ≠ ""
      · rw [if_pos h2] at hne
        exact absurd hne (by simp)
      · rw [if_neg h2] at hne
        rw [Option.some.injEq] at hne
        subst hne
        show (if e.abstract = "" then "" else pyTake 500 e.abstract).length ≤ 500
        by_cases h3 : e.abstract = ""
        · rw [if_pos h3]
          decide
        · rw [if_neg h3]
          exact pyTake_length_le 500 _

/-- A well-formed arXiv entry used to instantiate the amended C7. -/
def arxDemo : ArxivEntry :=
  { idText := some "http://arxiv.org/abs/2401.01234v1", title := some "T",
    authorNames := ["A"], summary := some "S",
    published := some "2024-01-15T12:00:00Z" }

/-- The record the arXiv connector builds from `arxDemo`. -/
def arxDemoPaper : Paper :=
  { id := "arxiv-2401-01234v1", title := "T", authors := "A", date := "2024-01-15",
    url := "https://arxiv.org/abs/2401.01234v1", abstract := "S", tags := [],
    source := "arXiv", featured := false }

/-- A well-formed Semantic Scholar entry used to instantiate the
amended C7. -/
def ssDemoEntry : SSEntry :=
  { title := "t", pubDate := "2024-01-01", arxivId := none, authorNames := [],
    abstract := "ok", url := "u", paperId := "p1" }

/-- The record the Semantic Scholar connector builds from
`ssDemoEntry`. -/
def ssDemoPaper : Paper :=
  { id := "ss-p1", title := "t", authors := "", date := "2024-01-01", url := "u",
    abstract := "ok", tags := [], source := "Semantic Scholar", featured := false }

/-- C7: witness for the amended theorem at concrete connector runs. -/
theorem c7_witness :
    (arxDemoPaper.abstract.length ≤ 500 ∧ ('\n') ∉ arxDemoPaper.abstract.data) ∧
    ssDemoPaper.abstract.length ≤ 500 :=
  ⟨c7_amended_abstract_caps.1 ("2024-02-01") ("2023-12-05") [arxDemo] arxDemoPaper (by decide),
   c7_amended_abstract_caps.2 [ssDemoEntry] ssDemoPaper (by decide)⟩

/-- C8: given a catalog of at least 30 papers, the feed publisher
emits exactly 30 items; item `i` is the rendering of paper `i` of the
catalog (the front of the list, in existing order, no re-sort); and
each rendered item carries the XML-escaped title, the XML-escaped url
as link, the CDATA-wrapped description block, and a guid equal to the
link. -/
theorem c8_feed_thirty_items (papersData : List Paper) (h : 30 ≤ papersData.length) :
    (generate_rss_items papersData).length = 30 ∧
    (∀ i : Nat, i < 30 →
      (generate_rss_items papersData)[i]? = (papersData[i]?).map mkRssItem) ∧
    (∀ p : Paper,
      (mkRssItem p).title = escape_xml p.title ∧
      (mkRssItem p).link = escape_xml p.url ∧
      (mkRssItem p).descriptionXml = "<![CDATA[" ++ rssDescription p ++ "]]>" ∧
      (mkRssItem p).guid = (mkRssItem p).link) := by
  refine ⟨?_, ?_, ?_⟩
  · show ((papersData.take 30).map mkRssItem).length = 30
    rw [List.length_map, List.length_take]
    exact Nat.min_eq_left h
  · intro i hi
    show ((papersData.take 30).map mkRssItem)[i]? = (papersData[i]?).map mkRssItem
    rw [List.getElem?_map, List.getElem?_take, if_pos hi]
  · intro p
    exact ⟨rfl, rfl, rfl, rfl⟩

/-- A synthetic paper used to populate the 40-entry demo catalog. -/
def demoPaper (n : Nat) : Paper :=
  { id := "p" ++ toString n, title := "", authors := "", date := "2024-01-01",
    url := "", abstract := "", tags := [], source := "", featured := false }

/-- A 40-entry catalog for C8's witness. -/
def demoCatalog : List Paper :=
  (List.range 40).map demoPaper

/-- C8: witness at a 40-entry catalog. -/
theorem c8_witness :
    30 ≤ demoCatalog.length ∧ (generate_rss_items demoCatalog).length = 30 :=
  ⟨by rw [show demoCatalog.length = 40 from by rw [demoCatalog, List.length_map, List.length_range]]; omega,
   (c8_feed_thirty_items demoCatalog
     (by rw [show demoCatalog.length = 40 from by rw [demoCatalog, List.length_map, List.length_range]]; omega)).1⟩

/-- C10: the Semantic Scholar connector drops every entry carrying a
truthy ArXiv external id, and every record it emits comes from an
entry with no (or an empty) ArXiv external id, a non-empty title and a
non-empty publication date. -/
theorem c10_ss_skips_arxiv :
    (∀ e : SSEntry, e.arxivId.getD "" ≠ "" → ssNormalize e = none) ∧
    (∀ (entries : List SSEntry) (p : Paper), p ∈ fetch_semantic_scholar entries →
      ∃ e, e ∈ entries ∧ ssNormalize e = some p ∧
        e.arxivId.getD "" = "" ∧ e.title ≠ "" ∧ e.pubDate ≠ "") := by
  constructor
  · intro e he
    unfold ssNormalize
    by_cases h1 : e.title = "" ∨ e.pubDate = ""
    · rw [if_pos h1]
    · rw [if_neg h1, if_pos he]
  · intro entries p hmem
    rcases List.mem_filterMap.mp hmem with ⟨e, he, hne⟩
    have h1 : ¬ (e.title = "" ∨ e.pubDate = "") := by
      intro hcon
      unfold ssNormalize at hne
      rw [if_pos hcon] at hne
      exact absurd hne (by simp)
    have h2 : ¬ (e.arxivId.getD "" ≠ "") := by
      intro hcon
      unfold ssNormalize at hne
      rw [if_neg h1, if_pos hcon] at hne
      exact absurd hne (by simp)
    exact ⟨e, he, hne, not_not.mp h2, (not_or.mp h1).1, (not_or.mp h1).2⟩

/-- An entry carrying an ArXiv external id (dropped by the connector). -/
def ssDropEntry : SSEntry :=
  { title := "t", pubDate := "2024-01-01", arxivId := some "2401.01234",
    authorNames := [], abstract := "", url := "", paperId := "p" }

/-- C10: witness instantiating both parts at concrete entries. -/
theorem c10_witness :
    ssNormalize ssDropEntry = none ∧
    (∃ e, e ∈ [ssDemoEntry] ∧ ssNormalize e = some ssDemoPaper ∧
      e.arxivId.getD "" = "" ∧ e.title ≠ "" ∧ e.pubDate ≠ "") :=
  ⟨c10_ss_skips_arxiv.1 ssDropEntry (by decide),
   c10_ss_skips_arxiv.2 [ssDemoEntry] ssDemoPaper (by decide)⟩
